import Mathlib

/-!
Shallow embedding of the retry/poll logic of the `selfhost-cli` repository
(files `selfhost_cli/utils/terraform.py`, `selfhost_cli/commands/ingress.py`,
`selfhost_cli/commands/terraform.py`, `selfhost_cli/commands/helm.py`),
together with proofs about it.

External effects (subprocess invocations, the JSON library, sleeps) are made
explicit: a probe is a function from the invocation index to the observable
result of that invocation, and each loop returns a run record that also
carries the number of probe invocations performed and the list of sleep
durations executed, in order.
-/

namespace SelfhostCli

/-! ## Python substring membership

`needle in haystack` on Python strings is a substring test.  We model strings
as their character lists; `strIn needle haystack` checks whether some suffix
of `haystack` starts with `needle`. -/

def strIn (needle haystack : String) : Bool :=
  haystack.toList.tails.any (fun t => needle.toList.isPrefixOf t)

theorem strIn_iff (needle haystack : String) :
    strIn needle haystack = true ↔
      ∃ pre post, pre ++ needle.toList ++ post = haystack.toList := by
  constructor
  · intro h
    simp only [strIn, List.any_eq_true] at h
    obtain ⟨t, ht, hp⟩ := h
    rw [List.mem_tails] at ht
    rw [ List.isPrefixOf_iff_prefix] at hp
    obtain ⟨post, hpost⟩ := hp
    obtain ⟨pre, hpre⟩ := ht
    exact ⟨pre, post, by rw [← hpre, ← hpost, List.append_assoc]⟩
  · rintro ⟨pre, post, h⟩
    simp only [strIn, List.any_eq_true]
    refine ⟨needle.toList ++ post, ?_, ?_⟩
    · rw [List.mem_tails]
      exact ⟨pre, by rw [← h, List.append_assoc]⟩
    · rw [ List.isPrefixOf_iff_prefix]
      exact ⟨post, rfl⟩

/-- Python `s.strip()`: remove leading and trailing whitespace.  Modelled on
the character list of the string. -/
def pyStrip (s : String) : String :=
  String.mk
    (((s.toList.dropWhile Char.isWhitespace).reverse.dropWhile
        Char.isWhitespace).reverse)

/-- Python `min(a, b)` on numbers: `a` when `a <= b`, else `b`.  Written as
an explicit conditional so that it evaluates by kernel reduction; it agrees
with Mathlib's `min` (next lemma). -/
def pyMin (a b : ℚ) : ℚ := if a ≤ b then a else b

theorem pyMin_eq_min (a b : ℚ) : pyMin a b = min a b := by
  unfold pyMin
  split_ifs with h
  · exact (min_eq_left h).symm
  · exact (min_eq_right (le_of_not_le h)).symm

/-! ## Retry Classifier (`selfhost_cli/utils/terraform.py`, `is_retryable_error`) -/

def retryable_errors : List String :=
  ["VcpuLimitExceeded",
   "CREATE_FAILED",
   "RequestLimitExceeded",
   "Throttling",
   "ServiceUnavailable"]

def is_retryable_error (error_text : String) : Bool :=
  retryable_errors.any (fun error => strIn error error_text)

/-- Claim C1: the Retry Classifier returns true iff at least one entry of its
marker set occurs in the input as a case-sensitive substring; in particular
the empty string (which contains no marker) yields false.  Purity and
determinism hold because `is_retryable_error` is a function of the input
text alone. -/
theorem is_retryable_error_spec (error_text : String) :
    (is_retryable_error error_text = true ↔
      ∃ m ∈ retryable_errors,
        ∃ pre post, pre ++ m.toList ++ post = error_text.toList) ∧
    is_retryable_error "" = false := by
  constructor
  · constructor
    · intro h
      simp only [is_retryable_error, List.any_eq_true] at h
      obtain ⟨m, hm, hin⟩ := h
      exact ⟨m, hm, (strIn_iff m error_text).mp hin⟩
    · rintro ⟨m, hm, hsub⟩
      simp only [is_retryable_error, List.any_eq_true]
      exact ⟨m, hm, (strIn_iff m error_text).mpr hsub⟩
  · decide

/-! ## Ingress-address poll loop
(`selfhost_cli/commands/ingress.py`, `get_ingress_address`)

One probe invocation is one `kubectl get ingress ... -o jsonpath=...` run with
`check=True`: it either raises `subprocess.CalledProcessError` (`err`) or
returns its standard output (`out s`).  The loop:

  max_attempts = 30; attempt = 0
  while attempt < max_attempts:
      try:
          result = subprocess.run(..., check=True)
          if result.stdout.strip(): return result.stdout.strip()
      except subprocess.CalledProcessError:
          if attempt == max_attempts - 1: raise click.Abort()   -- error report
      attempt += 1
      time.sleep(10)
  raise click.Abort()                                            -- timeout report

is embedded with explicit fuel `max_attempts - attempt`: the guard
`attempt < max_attempts` holds iff the fuel is positive. -/

inductive KubectlResult where
  | err : KubectlResult
  | out : String → KubectlResult
deriving DecidableEq, Repr

/-- Terminal outcome of `get_ingress_address`: the returned address, the
`click.Abort` raised from the `except` branch at the last attempt, or the
`click.Abort` raised after the `while` loop exhausts its attempts.  The two
abort outcomes differ only in the diagnostic text printed. -/
inductive IngressOutcome where
  | success : String → IngressOutcome
  | abortError : IngressOutcome
  | abortTimeout : IngressOutcome
deriving DecidableEq, Repr

structure IngressRun where
  outcome : IngressOutcome
  invocations : ℕ
  sleeps : List ℚ
deriving DecidableEq, Repr

def ingressGo (probe : ℕ → KubectlResult) (max_attempts attempt : ℕ) :
    ℕ → IngressRun
  | 0 => ⟨.abortTimeout, 0, []⟩
  | fuel + 1 =>
    match probe attempt with
    | .out s =>
      if pyStrip s ≠ "" then ⟨.success (pyStrip s), 1, []⟩
      else
        let rest := ingressGo probe max_attempts (attempt + 1) fuel
        ⟨rest.outcome, rest.invocations + 1, 10 :: rest.sleeps⟩
    | .err =>
      if attempt = max_attempts - 1 then ⟨.abortError, 1, []⟩
      else
        let rest := ingressGo probe max_attempts (attempt + 1) fuel
        ⟨rest.outcome, rest.invocations + 1, 10 :: rest.sleeps⟩

def get_ingress_address_with (max_attempts : ℕ) (probe : ℕ → KubectlResult) :
    IngressRun :=
  ingressGo probe max_attempts 0 max_attempts

def get_ingress_address (probe : ℕ → KubectlResult) : IngressRun :=
  get_ingress_address_with 30 probe

/-! ## DNS-propagation poll loop
(`selfhost_cli/commands/ingress.py`, `verify_dns_propagation`)

One probe invocation is the pair of `dig` runs (A record, CNAME record); both
are run without `check=True`, so `subprocess.run` never raises
`subprocess.CalledProcessError` there and the `except` arm is dead code.  A
probe is modelled by the pair of standard outputs it produces.  The loop:

  max_attempts = 30; attempt = 0; wait_time = 20
  while attempt < max_attempts:
      a_record = dig A; cname_record = dig CNAME
      if a_record.stdout.strip() or cname_record.stdout.strip(): return True
      attempt += 1
      time.sleep(wait_time)
      wait_time = min(wait_time * 1.5, 60)
  return False

Wait times are rationals; every value the Python float computation reaches
(20, 30, 45, 67.5, 60, 90) is exactly representable, so the rational model
agrees with the float one. -/

structure DnsRun where
  result : Bool
  invocations : ℕ
  sleeps : List ℚ
deriving DecidableEq, Repr

def dnsGo (probe : ℕ → String × String) (attempt : ℕ) (wait_time : ℚ) :
    ℕ → DnsRun
  | 0 => ⟨false, 0, []⟩
  | fuel + 1 =>
    if pyStrip (probe attempt).1 ≠ "" ∨ pyStrip (probe attempt).2 ≠ "" then
      ⟨true, 1, []⟩
    else
      let rest := dnsGo probe (attempt + 1) (pyMin (wait_time * 1.5) 60) fuel
      ⟨rest.result, rest.invocations + 1, wait_time :: rest.sleeps⟩

def verify_dns_propagation_with (max_attempts : ℕ)
    (probe : ℕ → String × String) : DnsRun :=
  dnsGo probe 0 20 max_attempts

def verify_dns_propagation (probe : ℕ → String × String) : DnsRun :=
  verify_dns_propagation_with 30 probe

/-! ## Cluster-readiness wait loop
(`selfhost_cli/commands/helm.py`, `wait_for_eks_cluster`)

  while True:
      try:
          result = subprocess.run(["kubectl", "get", "nodes"], ..., check=True)
          if "Ready" in result.stdout: break
      except subprocess.CalledProcessError:
          time.sleep(10)
          continue

There is no attempt bound.  The embedding runs the loop for `fuel` iterations:
`some k` means the loop terminated after exactly `k` probe invocations,
`none` means it was still running after `fuel` invocations.  Note the sleep
occurs only in the `except` branch; a successful `kubectl` run whose output
lacks "Ready" loops again immediately. -/

inductive NodesResult where
  | err : NodesResult
  | ok : String → NodesResult
deriving DecidableEq, Repr

def waitEksGo (probe : ℕ → NodesResult) (n : ℕ) : ℕ → Option ℕ
  | 0 => none
  | fuel + 1 =>
    match probe n with
    | .ok stdout =>
      if strIn "Ready" stdout then some (n + 1)
      else waitEksGo probe (n + 1) fuel
    | .err => waitEksGo probe (n + 1) fuel

def wait_for_eks_cluster (probe : ℕ → NodesResult) (fuel : ℕ) : Option ℕ :=
  waitEksGo probe 0 fuel

/-! ## Apply-with-retry loop
(`selfhost_cli/commands/terraform.py`, `run_terraform_apply`)

One attempt is one `terraform apply` subprocess run: it either exits zero
(`ok`), exits nonzero with a captured error text — joined streamed output
plus stderr — (`fail error_text`), or raises some other exception inside the
`try` block (`exc`).  The loop:

  retries = 0
  while retries < max_retries:
      try:
          ... run apply ...
          if process.returncode != 0:
              if is_retryable_error(error_text) and retries < max_retries - 1:
                  retries += 1; time.sleep(30); continue
              raise click.Abort()
          return outputs
      except Exception:
          if retries < max_retries - 1:
              retries += 1; time.sleep(30); continue
          raise click.Abort()

The `raise click.Abort()` for a non-retryable failure sits inside the `try`
block, and `click.Abort` subclasses `RuntimeError`, itself a subclass of
`Exception`, so the `except Exception` handler catches it: while
`retries < max_retries - 1` even a non-retryable failed apply is retried
after a 30-second sleep, and only when that guard fails does the handler
re-raise `click.Abort` out of the function.  The embedding models this
caught-and-redispatched abort explicitly: the non-retryable arm of the
`fail` case runs the same guard the `except` handler applies.  If the
`while` guard ever failed the function would fall through and return None
(`fellThrough`); the fuel is `max_retries - retries`, so the guard holds iff
the fuel is positive. -/

inductive ApplyAttempt where
  | ok : ApplyAttempt
  | fail : String → ApplyAttempt
  | exc : ApplyAttempt
deriving DecidableEq, Repr

inductive ApplyOutcome where
  | returned : ApplyOutcome
  | aborted : ApplyOutcome
  | fellThrough : ApplyOutcome
deriving DecidableEq, Repr

structure ApplyRun where
  outcome : ApplyOutcome
  invocations : ℕ
  sleeps : List ℚ
deriving DecidableEq, Repr

def applyGo (attemptResult : ℕ → ApplyAttempt) (max_retries retries : ℕ) :
    ℕ → ApplyRun
  | 0 => ⟨.fellThrough, 0, []⟩
  | fuel + 1 =>
    match attemptResult retries with
    | .ok => ⟨.returned, 1, []⟩
    | .fail error_text =>
      if is_retryable_error error_text ∧ retries < max_retries - 1 then
        let rest := applyGo attemptResult max_retries (retries + 1) fuel
        ⟨rest.outcome, rest.invocations + 1, 30 :: rest.sleeps⟩
      else
        -- raise click.Abort(), caught by the `except Exception` handler
        if retries < max_retries - 1 then
          let rest := applyGo attemptResult max_retries (retries + 1) fuel
          ⟨rest.outcome, rest.invocations + 1, 30 :: rest.sleeps⟩
        else ⟨.aborted, 1, []⟩
    | .exc =>
      if retries < max_retries - 1 then
        let rest := applyGo attemptResult max_retries (retries + 1) fuel
        ⟨rest.outcome, rest.invocations + 1, 30 :: rest.sleeps⟩
      else ⟨.aborted, 1, []⟩

/-- The full apply-with-retry loop; the source calls it with its default
`max_retries = 3`. -/
def run_terraform_apply (attemptResult : ℕ → ApplyAttempt)
    (max_retries : ℕ) : ApplyRun :=
  applyGo attemptResult max_retries 0 max_retries

/-! ## Terraform outputs query
(`selfhost_cli/utils/terraform.py`, `get_terraform_outputs`)

  try:
      result = subprocess.run(["terraform", "output", "-json"], ..., check=True)
      outputs = json.loads(result.stdout)
      return {k: v.get('value') for k, v in outputs.items()}
  except subprocess.CalledProcessError: return {}
  except json.JSONDecodeError: return {}

The subprocess plus the `json.loads` call on its standard output are external;
their joint observable result is either a `CalledProcessError`
(`procError`), a `JSONDecodeError` (`stdout none`), or a parsed JSON value
(`stdout (some j)`).  Only those two exception types are caught:
`outputs.items()` on a non-dict and `v.get('value')` on a non-dict value
raise `AttributeError`, which escapes the function. -/

inductive Json where
  | null : Json
  | bool : Bool → Json
  | num : ℚ → Json
  | str : String → Json
  | arr : List Json → Json
  | obj : List (String × Json) → Json

inductive TfCmd where
  | procError : TfCmd
  | stdout : Option Json → TfCmd

inductive PyResult (α : Type) where
  | ok : α → PyResult α
  | attributeError : PyResult α

def Json.isObj : Json → Bool
  | .obj _ => true
  | _ => false

/-- Python `v.get('value')` on a dict: the stored value, or `None` when the
key is absent. -/
def dictGetValue (kvs : List (String × Json)) : Json :=
  (kvs.lookup "value").getD .null

def get_terraform_outputs (cmd : TfCmd) : PyResult (List (String × Json)) :=
  match cmd with
  | .procError => .ok []
  | .stdout none => .ok []
  | .stdout (some j) =>
    match j with
    | .obj kvs =>
      if kvs.all (fun kv => kv.2.isObj) then
        .ok (kvs.map (fun kv =>
          (kv.1, match kv.2 with
                 | .obj vkvs => dictGetValue vkvs
                 | _ => .null)))
      else .attributeError
    | _ => .attributeError

/-! ## Loop lemmas -/

/-- A DNS probe invocation fails when both `dig` outputs are blank after
stripping. -/
def dnsFails (r : String × String) : Prop := pyStrip r.1 = "" ∧ pyStrip r.2 = ""

/-- An ingress probe invocation fails when `kubectl` raises or returns
blank output. -/
def ingressFails : KubectlResult → Prop
  | .err => True
  | .out s => pyStrip s = ""

theorem dnsGo_always_fail (probe : ℕ → String × String)
    (h : ∀ n, dnsFails (probe n)) :
    ∀ fuel attempt w, (dnsGo probe attempt w fuel).result = false ∧
      (dnsGo probe attempt w fuel).invocations = fuel ∧
      (dnsGo probe attempt w fuel).sleeps.length = fuel := by
  intro fuel
  induction fuel with
  | zero => intro attempt w; simp [dnsGo]
  | succ m ih =>
    intro attempt w
    obtain ⟨h1, h2⟩ := h attempt
    simp only [dnsGo]
    rw [if_neg (by simp [h1, h2])]
    obtain ⟨r1, r2, r3⟩ := ih (attempt + 1) (pyMin (w * 1.5) 60)
    exact ⟨r1, by simp [r2], by simp [r3]⟩

theorem ingressGo_always_fail (probe : ℕ → KubectlResult)
    (h : ∀ n, ingressFails (probe n)) :
    ∀ fuel attempt m, attempt + fuel = m →
      (ingressGo probe m attempt fuel).invocations = fuel ∧
      ((ingressGo probe m attempt fuel).outcome = .abortError ∨
       (ingressGo probe m attempt fuel).outcome = .abortTimeout) := by
  intro fuel
  induction fuel with
  | zero => intro attempt m hm; simp [ingressGo]
  | succ k ih =>
    intro attempt m hm
    have hf := h attempt
    match hp : probe attempt with
    | .err =>
      simp only [ingressGo, hp]
      by_cases hl : attempt = m - 1
      · rw [if_pos hl]
        constructor
        · show 1 = k + 1
          omega
        · exact .inl rfl
      · rw [if_neg hl]
        obtain ⟨r1, r2⟩ := ih (attempt + 1) m (by omega)
        exact ⟨by simpa using r1, r2⟩
    | .out s =>
      rw [hp] at hf
      simp only [ingressFails] at hf
      simp only [ingressGo, hp]
      rw [if_neg (by simp [hf])]
      obtain ⟨r1, r2⟩ := ih (attempt + 1) m (by omega)
      exact ⟨by simp [r1], r2⟩

/-- Claim C2: for a probe that fails on every invocation, the ingress-address
loop and the DNS-propagation loop each invoke the probe exactly
`max_attempts = 30` times and then give up: the DNS loop returns `False`
(its timeout report) and the ingress loop raises `click.Abort` (the timeout
abort when the final invocation returned blank output, the error-path abort
when it raised), never a success and never a 31st invocation. -/
theorem poll_loops_always_fail (probeD : ℕ → String × String)
    (probeI : ℕ → KubectlResult)
    (hD : ∀ n, dnsFails (probeD n)) (hI : ∀ n, ingressFails (probeI n)) :
    (verify_dns_propagation probeD).result = false ∧
    (verify_dns_propagation probeD).invocations = 30 ∧
    (get_ingress_address probeI).invocations = 30 ∧
    ((get_ingress_address probeI).outcome = .abortError ∨
     (get_ingress_address probeI).outcome = .abortTimeout) ∧
    (∀ a, (get_ingress_address probeI).outcome ≠ .success a) := by
  have d := dnsGo_always_fail probeD hD 30 0 20
  have i := ingressGo_always_fail probeI hI 30 0 30 (by omega)
  simp only [verify_dns_propagation, verify_dns_propagation_with,
    get_ingress_address, get_ingress_address_with]
  refine ⟨d.1, d.2.1, i.1, i.2, ?_⟩
  intro a ha
  rcases i.2 with h | h <;> rw [ha] at h <;> exact IngressOutcome.noConfusion h

/-- Claim C2 witness: the always-blank DNS probe and the always-raising
`kubectl` probe exercise the theorem at a concrete input. -/
theorem poll_loops_always_fail_witness :
    (verify_dns_propagation (fun _ => ("", ""))).result = false ∧
    (verify_dns_propagation (fun _ => ("", ""))).invocations = 30 ∧
    (get_ingress_address (fun _ => .err)).invocations = 30 ∧
    ((get_ingress_address (fun _ => .err)).outcome = .abortError ∨
     (get_ingress_address (fun _ => .err)).outcome = .abortTimeout) ∧
    (∀ a, (get_ingress_address (fun _ => .err)).outcome ≠ .success a) := by
  apply poll_loops_always_fail
  · intro n
    show dnsFails ("", "")
    exact ⟨by decide, by decide⟩
  · intro n
    show ingressFails .err
    trivial

theorem dnsGo_first_success (probe : ℕ → String × String) :
    ∀ d fuel attempt w, d < fuel →
      (∀ j, j < d → dnsFails (probe (attempt + j))) →
      (pyStrip (probe (attempt + d)).1 ≠ "" ∨
        pyStrip (probe (attempt + d)).2 ≠ "") →
      (dnsGo probe attempt w fuel).result = true ∧
      (dnsGo probe attempt w fuel).invocations = d + 1 ∧
      (dnsGo probe attempt w fuel).sleeps.length = d := by
  intro d
  induction d with
  | zero =>
    intro fuel attempt w hf _ hsucc
    match fuel, hf with
    | fuel + 1, _ =>
      rw [Nat.add_zero] at hsucc
      simp only [dnsGo]
      rw [if_pos hsucc]
      exact ⟨rfl, rfl, rfl⟩
  | succ n ih =>
    intro fuel attempt w hf hfail hsucc
    match fuel, hf with
    | fuel + 1, hf =>
      obtain ⟨h01, h02⟩ := hfail 0 (by omega)
      rw [Nat.add_zero] at h01 h02
      simp only [dnsGo]
      rw [if_neg (by simp [h01, h02])]
      have hfail' : ∀ j, j < n → dnsFails (probe (attempt + 1 + j)) := by
        intro j hj
        have e : attempt + 1 + j = attempt + (j + 1) := by omega
        rw [e]
        exact hfail (j + 1) (by omega)
      have hsucc' : pyStrip (probe (attempt + 1 + n)).1 ≠ "" ∨
          pyStrip (probe (attempt + 1 + n)).2 ≠ "" := by
        have e : attempt + 1 + n = attempt + (n + 1) := by omega
        rw [e]
        exact hsucc
      obtain ⟨r1, r2, r3⟩ :=
        ih fuel (attempt + 1) (pyMin (w * 1.5) 60) (by omega) hfail' hsucc'
      exact ⟨r1, by simp [r2], by simp [r3]⟩

theorem ingressGo_first_success (probe : ℕ → KubectlResult) (s : String) :
    ∀ d fuel attempt m, attempt + fuel = m → d < fuel →
      (∀ j, j < d → ingressFails (probe (attempt + j))) →
      probe (attempt + d) = .out s → pyStrip s ≠ "" →
      (ingressGo probe m attempt fuel).outcome = .success (pyStrip s) ∧
      (ingressGo probe m attempt fuel).invocations = d + 1 ∧
      (ingressGo probe m attempt fuel).sleeps.length = d := by
  intro d
  induction d with
  | zero =>
    intro fuel attempt m hm hf _ hsucc hs
    match fuel, hf with
    | fuel + 1, _ =>
      rw [Nat.add_zero] at hsucc
      simp only [ingressGo, hsucc]
      rw [if_pos hs]
      exact ⟨rfl, rfl, rfl⟩
  | succ n ih =>
    intro fuel attempt m hm hf hfail hsucc hs
    match fuel, hf with
    | fuel + 1, hf =>
      have h0 := hfail 0 (by omega)
      rw [Nat.add_zero] at h0
      have hfail' : ∀ j, j < n → ingressFails (probe (attempt + 1 + j)) := by
        intro j hj
        have e : attempt + 1 + j = attempt + (j + 1) := by omega
        rw [e]
        exact hfail (j + 1) (by omega)
      have hsucc' : probe (attempt + 1 + n) = .out s := by
        have e : attempt + 1 + n = attempt + (n + 1) := by omega
        rw [e]
        exact hsucc
      match hp : probe attempt with
      | .err =>
        simp only [ingressGo, hp]
        rw [if_neg (by omega)]
        obtain ⟨r1, r2, r3⟩ :=
          ih fuel (attempt + 1) m (by omega) (by omega) hfail' hsucc' hs
        exact ⟨r1, by simp [r2], by simp [r3]⟩
      | .out t =>
        rw [hp] at h0
        simp only [ingressFails] at h0
        simp only [ingressGo, hp]
        rw [if_neg (by simp [h0])]
        obtain ⟨r1, r2, r3⟩ :=
          ih fuel (attempt + 1) m (by omega) (by omega) hfail' hsucc' hs
        exact ⟨r1, by simp [r2], by simp [r3]⟩

theorem dnsGo_success_exit (probe : ℕ → String × String) :
    ∀ fuel attempt w, (dnsGo probe attempt w fuel).result = true →
      ∃ j, attempt ≤ j ∧ j < attempt + fuel ∧
        (pyStrip (probe j).1 ≠ "" ∨ pyStrip (probe j).2 ≠ "") := by
  intro fuel
  induction fuel with
  | zero => intro attempt w h; simp [dnsGo] at h
  | succ n ih =>
    intro attempt w h
    by_cases hc : pyStrip (probe attempt).1 ≠ "" ∨ pyStrip (probe attempt).2 ≠ ""
    · exact ⟨attempt, le_refl _, by omega, hc⟩
    · simp only [dnsGo] at h
      rw [if_neg hc] at h
      obtain ⟨j, hj1, hj2, hj3⟩ := ih (attempt + 1) (pyMin (w * 1.5) 60) h
      exact ⟨j, by omega, by omega, hj3⟩

theorem ingressGo_success_exit (probe : ℕ → KubectlResult) :
    ∀ fuel attempt m a, (ingressGo probe m attempt fuel).outcome = .success a →
      ∃ j t, attempt ≤ j ∧ j < attempt + fuel ∧ probe j = .out t ∧
        pyStrip t ≠ "" ∧ a = pyStrip t := by
  intro fuel
  induction fuel with
  | zero => intro attempt m a h; simp [ingressGo] at h
  | succ n ih =>
    intro attempt m a h
    match hp : probe attempt with
    | .err =>
      simp only [ingressGo, hp] at h
      by_cases hl : attempt = m - 1
      · rw [if_pos hl] at h
        exact absurd h (by simp)
      · rw [if_neg hl] at h
        obtain ⟨j, t, hj1, hj2, hj3, hj4, hj5⟩ := ih (attempt + 1) m a h
        exact ⟨j, t, by omega, by omega, hj3, hj4, hj5⟩
    | .out t =>
      simp only [ingressGo, hp] at h
      by_cases hc : pyStrip t ≠ ""
      · rw [if_pos hc] at h
        have ha : a = pyStrip t := by
          have := h
          simp only [IngressRun.mk.injEq] at this ⊢
          exact (IngressOutcome.success.injEq _ _).mp this.symm
        exact ⟨attempt, t, le_refl _, by omega, hp, hc, ha⟩
      · rw [if_neg hc] at h
        obtain ⟨j, u, hj1, hj2, hj3, hj4, hj5⟩ := ih (attempt + 1) m a h
        exact ⟨j, u, by omega, by omega, hj3, hj4, hj5⟩

/-- Claim C3: if the probe first succeeds on its k-th invocation
(1 ≤ k ≤ 30), each loop performs exactly k probe invocations, returns the
success result immediately (the DNS loop returns True, the ingress loop
returns the stripped address), and performs no sleep and no probe invocation
after that k-th invocation (exactly k - 1 sleeps happen, all between earlier
failed attempts); moreover a succeeding probe invocation is the only way
either loop can produce its success result. -/
theorem poll_loops_first_success (probeD : ℕ → String × String)
    (probeI : ℕ → KubectlResult) (k : ℕ) (s : String)
    (hk1 : 1 ≤ k) (hk30 : k ≤ 30)
    (hDfail : ∀ j, j + 1 < k → dnsFails (probeD j))
    (hDsucc : pyStrip (probeD (k - 1)).1 ≠ "" ∨
      pyStrip (probeD (k - 1)).2 ≠ "")
    (hIfail : ∀ j, j + 1 < k → ingressFails (probeI j))
    (hIsucc : probeI (k - 1) = .out s) (hs : pyStrip s ≠ "") :
    ((verify_dns_propagation probeD).result = true ∧
     (verify_dns_propagation probeD).invocations = k ∧
     (verify_dns_propagation probeD).sleeps.length = k - 1) ∧
    ((get_ingress_address probeI).outcome = .success (pyStrip s) ∧
     (get_ingress_address probeI).invocations = k ∧
     (get_ingress_address probeI).sleeps.length = k - 1) ∧
    (∀ q : ℕ → String × String, (verify_dns_propagation q).result = true →
      ∃ j, j < 30 ∧ (pyStrip (q j).1 ≠ "" ∨ pyStrip (q j).2 ≠ "")) ∧
    (∀ qI : ℕ → KubectlResult, ∀ a,
      (get_ingress_address qI).outcome = .success a →
      ∃ j t, j < 30 ∧ qI j = .out t ∧ pyStrip t ≠ "" ∧ a = pyStrip t) := by
  refine ⟨?_, ?_, ?_, ?_⟩
  · have := dnsGo_first_success probeD (k - 1) 30 0 20 (by omega)
      (by intro j hj; simpa using hDfail j (by omega))
      (by simpa using hDsucc)
    simp only [verify_dns_propagation, verify_dns_propagation_with]
    exact ⟨this.1, by omega, by omega⟩
  · have := ingressGo_first_success probeI s (k - 1) 30 0 30 (by omega)
      (by omega) (by intro j hj; simpa using hIfail j (by omega))
      (by simpa using hIsucc) hs
    simp only [get_ingress_address, get_ingress_address_with]
    exact ⟨this.1, by omega, by omega⟩
  · intro q hq
    simp only [verify_dns_propagation, verify_dns_propagation_with] at hq
    obtain ⟨j, hj1, hj2, hj3⟩ := dnsGo_success_exit q 30 0 20 hq
    exact ⟨j, by omega, hj3⟩
  · intro qI a ha
    simp only [get_ingress_address, get_ingress_address_with] at ha
    obtain ⟨j, t, hj1, hj2, hj3, hj4, hj5⟩ := ingressGo_success_exit qI 30 0 30 a ha
    exact ⟨j, t, by omega, hj3, hj4, hj5⟩

/-- Concrete probes for the claim C3 witness: both fail on invocations 1 and
2 and succeed on invocation 3. -/
def probeDW : ℕ → String × String := fun n => if n = 2 then ("1.2.3.4", "") else ("", "")

def probeIW : ℕ → KubectlResult := fun n => if n = 2 then .out " addr " else .out ""

/-- Claim C3 witness: with probes first succeeding on invocation k = 3, both
loops perform exactly 3 invocations and 2 sleeps and report success. -/
theorem poll_loops_first_success_witness :
    ((verify_dns_propagation probeDW).result = true ∧
     (verify_dns_propagation probeDW).invocations = 3 ∧
     (verify_dns_propagation probeDW).sleeps.length = 2) ∧
    ((get_ingress_address probeIW).outcome = .success (pyStrip " addr ") ∧
     (get_ingress_address probeIW).invocations = 3 ∧
     (get_ingress_address probeIW).sleeps.length = 2) := by
  have h := poll_loops_first_success probeDW probeIW 3 " addr "
    (by omega) (by omega)
    (by intro j hj
        have : j = 0 ∨ j = 1 := by omega
        rcases this with rfl | rfl <;> exact ⟨by decide, by decide⟩)
    (by left; decide)
    (by intro j hj
        have : j = 0 ∨ j = 1 := by omega
        rcases this with rfl | rfl <;> exact (by decide : pyStrip "" = ""))
    (by decide) (by decide)
  exact ⟨h.1, h.2.1⟩

theorem dnsGo_sleeps_get (probe : ℕ → String × String) :
    ∀ fuel attempt w i, i < (dnsGo probe attempt w fuel).sleeps.length →
      (dnsGo probe attempt w fuel).sleeps[i]? =
        some ((fun x : ℚ => pyMin (x * 1.5) 60)^[i] w) := by
  intro fuel
  induction fuel with
  | zero => intro attempt w i h; simp [dnsGo] at h
  | succ n ih =>
    intro attempt w i h
    by_cases hc : pyStrip (probe attempt).1 ≠ "" ∨ pyStrip (probe attempt).2 ≠ ""
    · exfalso
      simp only [dnsGo] at h
      rw [if_pos hc] at h
      simp at h
    · simp only [dnsGo] at h ⊢
      rw [if_neg hc] at h ⊢
      cases i with
      | zero => simp
      | succ i =>
        have hlen : i < (dnsGo probe (attempt + 1) (pyMin (w * 1.5) 60) n).sleeps.length := by
          simpa using h
        have := ih (attempt + 1) (pyMin (w * 1.5) 60) i hlen
        simpa [Function.iterate_succ_apply] using this

theorem iterate_wait (i : ℕ) :
    (fun x : ℚ => pyMin (x * 1.5) 60)^[i] 20 = min (20 * (1.5 : ℚ) ^ i) 60 := by
  induction i with
  | zero =>
    show (20 : ℚ) = min (20 * (1.5 : ℚ) ^ 0) 60
    norm_num
  | succ n ih =>
    rw [Function.iterate_succ_apply', ih]
    show pyMin (min (20 * (1.5 : ℚ) ^ n) 60 * 1.5) 60 = _
    rw [pyMin_eq_min]
    rcases le_total (20 * (1.5 : ℚ) ^ n) 60 with h | h
    · rw [min_eq_left h]
      congr 1
      rw [pow_succ]
      ring
    · rw [min_eq_right h]
      have h2 : (60 : ℚ) ≤ 20 * (1.5 : ℚ) ^ (n + 1) := by
        rw [pow_succ]
        nlinarith
      rw [min_eq_right h2]
      norm_num

/-- Claim C4: in the DNS-propagation loop the i-th sleep (0-indexed) lasts
exactly min(20 * 1.5^i, 60) seconds, whatever the probe does; for the
always-failing probe the full sequence of 30 sleeps is
20, 30, 45, then 60 repeated (the cap), matching 20, 30, 45, 60, 60, 60, …
as 1-indexed waits min(20 * 1.5^(i-1), 60). -/
theorem dns_wait_sequence (probe : ℕ → String × String) (i : ℕ)
    (h : i < (verify_dns_propagation probe).sleeps.length) :
    (verify_dns_propagation probe).sleeps[i]? =
      some (min (20 * (1.5 : ℚ) ^ i) 60) ∧
    (verify_dns_propagation (fun _ => ("", ""))).sleeps =
      20 :: 30 :: 45 :: List.replicate 27 (60 : ℚ) := by
  constructor
  · have h30 : i < (dnsGo probe 0 20 30).sleeps.length := h
    show (dnsGo probe 0 20 30).sleeps[i]? = _
    rw [dnsGo_sleeps_get probe 30 0 20 i h30, iterate_wait i]
  · with_unfolding_all decide

/-- Claim C4 witness: the fourth sleep of a timing-out run is
min(20 * 1.5^3, 60) = 60 seconds. -/
theorem dns_wait_sequence_witness :
    3 < (verify_dns_propagation (fun _ => ("", ""))).sleeps.length ∧
    (verify_dns_propagation (fun _ => ("", ""))).sleeps[3]? =
      some (min (20 * (1.5 : ℚ) ^ 3) 60) :=
  ⟨by decide, (dns_wait_sequence (fun _ => ("", "")) 3 (by decide)).1⟩

theorem dnsGo_sleeps_bounds (probe : ℕ → String × String) :
    ∀ fuel attempt w, 0 ≤ w → w ≤ 60 →
      ∀ x ∈ (dnsGo probe attempt w fuel).sleeps, w ≤ x ∧ x ≤ 60 := by
  intro fuel
  induction fuel with
  | zero => intro attempt w _ _ x hx; simp [dnsGo] at hx
  | succ n ih =>
    intro attempt w h0 h60 x hx
    by_cases hc : pyStrip (probe attempt).1 ≠ "" ∨ pyStrip (probe attempt).2 ≠ ""
    · simp only [dnsGo] at hx
      rw [if_pos hc] at hx
      simp at hx
    · simp only [dnsGo] at hx
      rw [if_neg hc] at hx
      simp only [List.mem_cons] at hx
      rcases hx with rfl | hx
      · exact ⟨le_refl x, h60⟩
      · have hw0 : (0 : ℚ) ≤ pyMin (w * 1.5) 60 := by
          rw [pyMin_eq_min]
          exact le_min (by nlinarith) (by norm_num)
        have hle60 : pyMin (w * 1.5) 60 ≤ 60 := by
          rw [pyMin_eq_min]
          exact min_le_right _ _
        have hrec := ih (attempt + 1) (pyMin (w * 1.5) 60) hw0 hle60 x hx
        have hwle : w ≤ pyMin (w * 1.5) 60 := by
          rw [pyMin_eq_min]
          exact le_min (by nlinarith) h60
        exact ⟨le_trans hwle hrec.1, hrec.2⟩

theorem dnsGo_sleeps_sorted (probe : ℕ → String × String) :
    ∀ fuel attempt w, 0 ≤ w → w ≤ 60 →
      ((dnsGo probe attempt w fuel).sleeps).Sorted (· ≤ ·) := by
  intro fuel
  induction fuel with
  | zero => intro attempt w _ _; simp [dnsGo]
  | succ n ih =>
    intro attempt w h0 h60
    by_cases hc : pyStrip (probe attempt).1 ≠ "" ∨ pyStrip (probe attempt).2 ≠ ""
    · simp only [dnsGo]
      rw [if_pos hc]
      simp
    · simp only [dnsGo]
      rw [if_neg hc]
      have hw0 : (0 : ℚ) ≤ pyMin (w * 1.5) 60 := by
        rw [pyMin_eq_min]
        exact le_min (by nlinarith) (by norm_num)
      have hle60 : pyMin (w * 1.5) 60 ≤ 60 := by
        rw [pyMin_eq_min]
        exact min_le_right _ _
      have hwle : w ≤ pyMin (w * 1.5) 60 := by
        rw [pyMin_eq_min]
        exact le_min (by nlinarith) h60
      refine List.sorted_cons.mpr ⟨?_, ih (attempt + 1) _ hw0 hle60⟩
      intro b hb
      have := dnsGo_sleeps_bounds probe n (attempt + 1) (pyMin (w * 1.5) 60)
        hw0 hle60 b hb
      exact le_trans hwle this.1

theorem ingressGo_sleeps_ten (probe : ℕ → KubectlResult) :
    ∀ fuel attempt m, ∀ x ∈ (ingressGo probe m attempt fuel).sleeps, x = 10 := by
  intro fuel
  induction fuel with
  | zero => intro attempt m x hx; simp [ingressGo] at hx
  | succ n ih =>
    intro attempt m x hx
    match hp : probe attempt with
    | .err =>
      simp only [ingressGo, hp] at hx
      by_cases hl : attempt = m - 1
      · rw [if_pos hl] at hx
        simp at hx
      · rw [if_neg hl] at hx
        simp only [List.mem_cons] at hx
        rcases hx with rfl | hx
        · rfl
        · exact ih (attempt + 1) m x hx
    | .out s =>
      simp only [ingressGo, hp] at hx
      by_cases hc : pyStrip s ≠ ""
      · rw [if_pos hc] at hx
        simp at hx
      · rw [if_neg hc] at hx
        simp only [List.mem_cons] at hx
        rcases hx with rfl | hx
        · rfl
        · exact ih (attempt + 1) m x hx

theorem dnsGo_invocations_le (probe : ℕ → String × String) :
    ∀ fuel attempt w, (dnsGo probe attempt w fuel).invocations ≤ fuel := by
  intro fuel
  induction fuel with
  | zero => intro attempt w; simp [dnsGo]
  | succ n ih =>
    intro attempt w
    by_cases hc : pyStrip (probe attempt).1 ≠ "" ∨ pyStrip (probe attempt).2 ≠ ""
    · simp only [dnsGo]
      rw [if_pos hc]
      simp
    · simp only [dnsGo]
      rw [if_neg hc]
      have := ih (attempt + 1) (pyMin (w * 1.5) 60)
      simpa using Nat.add_le_add_right this 1

theorem ingressGo_invocations_le (probe : ℕ → KubectlResult) :
    ∀ fuel attempt m, (ingressGo probe m attempt fuel).invocations ≤ fuel := by
  intro fuel
  induction fuel with
  | zero => intro attempt m; simp [ingressGo]
  | succ n ih =>
    intro attempt m
    match hp : probe attempt with
    | .err =>
      simp only [ingressGo, hp]
      by_cases hl : attempt = m - 1
      · rw [if_pos hl]; simp
      · rw [if_neg hl]
        have := ih (attempt + 1) m
        simpa using Nat.add_le_add_right this 1
    | .out s =>
      simp only [ingressGo, hp]
      by_cases hc : pyStrip s ≠ ""
      · rw [if_pos hc]; simp
      · rw [if_neg hc]
        have := ih (attempt + 1) m
        simpa using Nat.add_le_add_right this 1

theorem dnsGo_false_invocations (probe : ℕ → String × String) :
    ∀ fuel attempt w, (dnsGo probe attempt w fuel).result = false →
      (dnsGo probe attempt w fuel).invocations = fuel := by
  intro fuel
  induction fuel with
  | zero => intro attempt w _; simp [dnsGo]
  | succ n ih =>
    intro attempt w h
    by_cases hc : pyStrip (probe attempt).1 ≠ "" ∨ pyStrip (probe attempt).2 ≠ ""
    · exfalso
      simp only [dnsGo] at h
      rw [if_pos hc] at h
      simp at h
    · simp only [dnsGo] at h ⊢
      rw [if_neg hc] at h ⊢
      have := ih (attempt + 1) (pyMin (w * 1.5) 60) (by simpa using h)
      simpa using this

/-- Claim C5: poll-state invariant.  In the DNS loop the sleep durations are
non-decreasing across iterations and never exceed the 60-second cap; in the
ingress loop every sleep is the constant 10 seconds (so non-decreasing and
never above its cap); and the attempt counter advances by one per failed
iteration up to max_attempts = 30: neither loop makes more than 30 probe
invocations, and a DNS run that reports timeout made exactly 30. -/
theorem poll_state_invariant (probeD : ℕ → String × String)
    (probeI : ℕ → KubectlResult) :
    ((verify_dns_propagation probeD).sleeps).Sorted (· ≤ ·) ∧
    (∀ x ∈ (verify_dns_propagation probeD).sleeps, x ≤ 60) ∧
    (∀ x ∈ (get_ingress_address probeI).sleeps, x = 10) ∧
    (verify_dns_propagation probeD).invocations ≤ 30 ∧
    (get_ingress_address probeI).invocations ≤ 30 ∧
    ((verify_dns_propagation probeD).result = false →
      (verify_dns_propagation probeD).invocations = 30) := by
  refine ⟨?_, ?_, ?_, ?_, ?_, ?_⟩
  · exact dnsGo_sleeps_sorted probeD 30 0 20 (by norm_num) (by norm_num)
  · intro x hx
    exact (dnsGo_sleeps_bounds probeD 30 0 20 (by norm_num) (by norm_num) x hx).2
  · intro x hx
    exact ingressGo_sleeps_ten probeI 30 0 30 x hx
  · exact dnsGo_invocations_le probeD 30 0 20
  · exact ingressGo_invocations_le probeI 30 0 30
  · exact dnsGo_false_invocations probeD 30 0 20

/-- Claim C5 witness: the invariant instantiated on the always-failing
probes, checked on the concrete sleep 45 of the DNS run and the concrete
sleep 10 of the ingress run. -/
theorem poll_state_invariant_witness :
    ((verify_dns_propagation (fun _ => ("", ""))).sleeps).Sorted (· ≤ ·) ∧
    (45 : ℚ) ∈ (verify_dns_propagation (fun _ => ("", ""))).sleeps ∧
    (45 : ℚ) ≤ 60 ∧
    (10 : ℚ) ∈ (get_ingress_address (fun _ => .err)).sleeps ∧
    (verify_dns_propagation (fun _ => ("", ""))).invocations ≤ 30 ∧
    (get_ingress_address (fun _ => .err)).invocations ≤ 30 := by
  have h := poll_state_invariant (fun _ => ("", "")) (fun _ => .err)
  have h45 : (45 : ℚ) ∈ (verify_dns_propagation (fun _ => ("", ""))).sleeps := by
    with_unfolding_all decide
  have h10 : (10 : ℚ) ∈ (get_ingress_address (fun _ => .err)).sleeps := by
    decide
  exact ⟨h.1, h45, h.2.1 45 h45, h10, h.2.2.2.1, h.2.2.2.2.1⟩

theorem ingressGo_always_empty (probe : ℕ → KubectlResult)
    (h : ∀ n, ∃ s, probe n = .out s ∧ pyStrip s = "") :
    ∀ fuel attempt m,
      (ingressGo probe m attempt fuel).outcome = .abortTimeout ∧
      (ingressGo probe m attempt fuel).invocations = fuel ∧
      (ingressGo probe m attempt fuel).sleeps.length = fuel := by
  intro fuel
  induction fuel with
  | zero => intro attempt m; exact ⟨rfl, rfl, rfl⟩
  | succ k ih =>
    intro attempt m
    obtain ⟨s, hp, hs⟩ := h attempt
    simp only [ingressGo, hp]
    rw [if_neg (by simp [hs])]
    obtain ⟨r1, r2, r3⟩ := ih (attempt + 1) m
    exact ⟨r1, by simp [r2], by simp [r3]⟩

theorem ingressGo_always_err (probe : ℕ → KubectlResult)
    (h : ∀ n, probe n = .err) :
    ∀ fuel attempt m, attempt + fuel = m → 1 ≤ fuel →
      (ingressGo probe m attempt fuel).outcome = .abortError ∧
      (ingressGo probe m attempt fuel).invocations = fuel ∧
      (ingressGo probe m attempt fuel).sleeps.length = fuel - 1 := by
  intro fuel
  induction fuel with
  | zero => intro attempt m _ hf; omega
  | succ k ih =>
    intro attempt m hm _
    simp only [ingressGo, h attempt]
    by_cases hl : attempt = m - 1
    · have hk : k = 0 := by omega
      subst hk
      rw [if_pos hl]
      exact ⟨rfl, rfl, rfl⟩
    · rw [if_neg hl]
      have hk : 1 ≤ k := by omega
      obtain ⟨r1, r2, r3⟩ := ih (attempt + 1) m (by omega) hk
      refine ⟨r1, by simp [r2], ?_⟩
      simp only [List.length_cons, r3]
      omega

/-- Claim C6 counterexample: in the DNS loop with an always-failing probe,
the run makes 30 probe invocations and 30 sleeps before returning its
timeout report False — one sleep occurs after the 30th, final, failed probe
invocation, whereas the claim ("no further sleep between the final failed
probe invocation and the timeout report") allows only the 29 sleeps that
separate consecutive invocations. -/
theorem timeout_final_sleep_counterexample :
    (verify_dns_propagation (fun _ => ("", ""))).result = false ∧
    (verify_dns_propagation (fun _ => ("", ""))).invocations = 30 ∧
    (verify_dns_propagation (fun _ => ("", ""))).sleeps.length = 30 := by
  refine ⟨by decide, by decide, by decide⟩

/-- Claim C6 as amended: when the probe fails and the incremented attempt
counter reaches max_attempts, each loop stops and reports timeout, but it
first performs one more sleep after that final failed probe invocation —
the DNS loop and the ingress loop's blank-output path sleep 30 times for 30
invocations; only the ingress loop's process-error path at the final attempt
aborts immediately, with 29 sleeps for 30 invocations. -/
theorem timeout_final_sleep (probeD : ℕ → String × String)
    (probeEmpty probeErr : ℕ → KubectlResult)
    (hD : ∀ n, dnsFails (probeD n))
    (hE : ∀ n, ∃ s, probeEmpty n = .out s ∧ pyStrip s = "")
    (hR : ∀ n, probeErr n = .err) :
    ((verify_dns_propagation probeD).result = false ∧
     (verify_dns_propagation probeD).invocations = 30 ∧
     (verify_dns_propagation probeD).sleeps.length = 30) ∧
    ((get_ingress_address probeEmpty).outcome = .abortTimeout ∧
     (get_ingress_address probeEmpty).invocations = 30 ∧
     (get_ingress_address probeEmpty).sleeps.length = 30) ∧
    ((get_ingress_address probeErr).outcome = .abortError ∧
     (get_ingress_address probeErr).invocations = 30 ∧
     (get_ingress_address probeErr).sleeps.length = 29) := by
  refine ⟨?_, ?_, ?_⟩
  · exact dnsGo_always_fail probeD hD 30 0 20
  · exact ingressGo_always_empty probeEmpty hE 30 0 30
  · exact ingressGo_always_err probeErr hR 30 0 30 (by omega) (by omega)

/-- Claim C6 amended-claim witness: concrete always-failing probes of each
kind. -/
theorem timeout_final_sleep_witness :
    ((verify_dns_propagation (fun _ => ("", ""))).sleeps.length = 30) ∧
    ((get_ingress_address (fun _ => .out "")).outcome = .abortTimeout ∧
     (get_ingress_address (fun _ => .out "")).sleeps.length = 30) ∧
    ((get_ingress_address (fun _ => .err)).outcome = .abortError ∧
     (get_ingress_address (fun _ => .err)).sleeps.length = 29) := by
  have h := timeout_final_sleep (fun _ => ("", "")) (fun _ => .out "")
    (fun _ => .err)
    (by intro n
        show dnsFails ("", "")
        exact ⟨by decide, by decide⟩)
    (by intro n
        exact ⟨"", rfl, by decide⟩)
    (fun _ => rfl)
  exact ⟨h.1.2.2, ⟨h.2.1.1, h.2.1.2.2⟩, ⟨h.2.2.1, h.2.2.2.2⟩⟩

/-- Claim C7 counterexample: the code contains no validation of
max_attempts (the source hard-codes `max_attempts = 30` inside each
function); running the loops with max_attempts = 0 does not produce any
validation error — the while guard is simply false, the probe (here one
that would succeed instantly) is invoked zero times, and each loop falls
straight through to its ordinary timeout report (DNS returns False, ingress
raises the timeout abort). -/
theorem max_attempts_zero_counterexample :
    (verify_dns_propagation_with 0 (fun _ => ("93.184.216.34", ""))).result
        = false ∧
    (verify_dns_propagation_with 0
        (fun _ => ("93.184.216.34", ""))).invocations = 0 ∧
    (get_ingress_address_with 0 (fun _ => .out "addr")).outcome
        = .abortTimeout ∧
    (get_ingress_address_with 0 (fun _ => .out "addr")).invocations = 0 :=
  ⟨rfl, rfl, rfl, rfl⟩

/-- Claim C7 as amended: the loops perform no validation of max_attempts;
if run with max_attempts = 0, whatever the probe would do, the probe is
invoked zero times and the loop immediately reports its ordinary timeout
outcome (DNS: returns False; ingress: raises the timeout abort), not a
validation error. -/
theorem max_attempts_zero_behavior (probeD : ℕ → String × String)
    (probeI : ℕ → KubectlResult) :
    verify_dns_propagation_with 0 probeD = ⟨false, 0, []⟩ ∧
    get_ingress_address_with 0 probeI = ⟨.abortTimeout, 0, []⟩ :=
  ⟨rfl, rfl⟩

theorem applyGo_invocations_le (att : ℕ → ApplyAttempt) :
    ∀ fuel maxR retries, (applyGo att maxR retries fuel).invocations ≤ fuel := by
  intro fuel
  induction fuel with
  | zero => intro maxR retries; simp [applyGo]
  | succ k ih =>
    intro maxR retries
    match ha : att retries with
    | .ok => simp [applyGo, ha]
    | .fail e =>
      simp only [applyGo, ha]
      by_cases hg : is_retryable_error e ∧ retries < maxR - 1
      · rw [if_pos hg]
        have := ih maxR (retries + 1)
        simpa using Nat.add_le_add_right this 1
      · rw [if_neg hg]
        by_cases hg2 : retries < maxR - 1
        · rw [if_pos hg2]
          have := ih maxR (retries + 1)
          simpa using Nat.add_le_add_right this 1
        · rw [if_neg hg2]
          simp
    | .exc =>
      simp only [applyGo, ha]
      by_cases hg : retries < maxR - 1
      · rw [if_pos hg]
        have := ih maxR (retries + 1)
        simpa using Nat.add_le_add_right this 1
      · rw [if_neg hg]
        simp

theorem applyGo_sleeps_thirty (att : ℕ → ApplyAttempt) :
    ∀ fuel maxR retries, ∀ x ∈ (applyGo att maxR retries fuel).sleeps, x = 30 := by
  intro fuel
  induction fuel with
  | zero => intro maxR retries x hx; simp [applyGo] at hx
  | succ k ih =>
    intro maxR retries x hx
    match ha : att retries with
    | .ok => simp [applyGo, ha] at hx
    | .fail e =>
      simp only [applyGo, ha] at hx
      by_cases hg : is_retryable_error e ∧ retries < maxR - 1
      · rw [if_pos hg] at hx
        simp only [List.mem_cons] at hx
        rcases hx with rfl | hx
        · rfl
        · exact ih maxR (retries + 1) x hx
      · rw [if_neg hg] at hx
        by_cases hg2 : retries < maxR - 1
        · rw [if_pos hg2] at hx
          simp only [List.mem_cons] at hx
          rcases hx with rfl | hx
          · rfl
          · exact ih maxR (retries + 1) x hx
        · rw [if_neg hg2] at hx
          simp at hx
    | .exc =>
      simp only [applyGo, ha] at hx
      by_cases hg : retries < maxR - 1
      · rw [if_pos hg] at hx
        simp only [List.mem_cons] at hx
        rcases hx with rfl | hx
        · rfl
        · exact ih maxR (retries + 1) x hx
      · rw [if_neg hg] at hx
        simp at hx

theorem applyGo_sleeps_count (att : ℕ → ApplyAttempt) :
    ∀ fuel maxR retries, retries + fuel = maxR → 1 ≤ fuel →
      (applyGo att maxR retries fuel).sleeps.length + 1 =
        (applyGo att maxR retries fuel).invocations := by
  intro fuel
  induction fuel with
  | zero => intro maxR retries _ hf; omega
  | succ k ih =>
    intro maxR retries hm _
    match ha : att retries with
    | .ok => simp [applyGo, ha]
    | .fail e =>
      simp only [applyGo, ha]
      by_cases hg : is_retryable_error e ∧ retries < maxR - 1
      · rw [if_pos hg]
        have hk : 1 ≤ k := by omega
        have := ih maxR (retries + 1) (by omega) hk
        simp only [List.length_cons]
        omega
      · rw [if_neg hg]
        by_cases hg2 : retries < maxR - 1
        · rw [if_pos hg2]
          have hk : 1 ≤ k := by omega
          have := ih maxR (retries + 1) (by omega) hk
          simp only [List.length_cons]
          omega
        · rw [if_neg hg2]
          simp
    | .exc =>
      simp only [applyGo, ha]
      by_cases hg : retries < maxR - 1
      · rw [if_pos hg]
        have hk : 1 ≤ k := by omega
        have := ih maxR (retries + 1) (by omega) hk
        simp only [List.length_cons]
        omega
      · rw [if_neg hg]
        simp

/-- Claim C8: in the apply-with-retry loop with its cap max_retries = 3,
whatever each apply attempt does, the total number of `terraform apply`
invocations never exceeds 3, every sleep between attempts lasts exactly the
constant 30 seconds (no backoff growth), and every invocation after the
first is preceded by exactly one such sleep.  In particular every retry of a
retryable-classified failure is preceded by the flat 30-second delay; the
same holds for the retries the `except Exception` handler performs after
catching the non-retryable path's `click.Abort`. -/
theorem run_terraform_apply_policy (att : ℕ → ApplyAttempt) :
    (run_terraform_apply att 3).invocations ≤ 3 ∧
    (∀ x ∈ (run_terraform_apply att 3).sleeps, x = 30) ∧
    (run_terraform_apply att 3).sleeps.length + 1 =
      (run_terraform_apply att 3).invocations := by
  refine ⟨?_, ?_, ?_⟩
  · exact applyGo_invocations_le att 3 3 0
  · intro x hx
    exact applyGo_sleeps_thirty att 3 3 0 x hx
  · exact applyGo_sleeps_count att 3 3 0 (by omega) (by omega)

/-- Claim C8 witness: an apply attempt that always fails with a retryable
marker is retried twice, 30 seconds apart, and capped at 3 invocations. -/
theorem run_terraform_apply_policy_witness :
    (run_terraform_apply (fun _ => .fail "Throttling: rate exceeded") 3).invocations ≤ 3 ∧
    (30 : ℚ) ∈ (run_terraform_apply (fun _ => .fail "Throttling: rate exceeded") 3).sleeps ∧
    (30 : ℚ) = 30 ∧
    (run_terraform_apply (fun _ => .fail "Throttling: rate exceeded") 3).sleeps.length + 1 =
      (run_terraform_apply (fun _ => .fail "Throttling: rate exceeded") 3).invocations := by
  have h := run_terraform_apply_policy (fun _ => .fail "Throttling: rate exceeded")
  have hmem : (30 : ℚ) ∈
      (run_terraform_apply (fun _ => .fail "Throttling: rate exceeded") 3).sleeps := by
    decide
  exact ⟨h.1, hmem, h.2.1 30 hmem, h.2.2⟩

theorem waitEksGo_never_ready (probe : ℕ → NodesResult)
    (h : ∀ n s, probe n = .ok s → strIn "Ready" s = false) :
    ∀ fuel n, waitEksGo probe n fuel = none := by
  intro fuel
  induction fuel with
  | zero => intro n; rfl
  | succ k ih =>
    intro n
    match hp : probe n with
    | .ok s =>
      simp only [waitEksGo, hp]
      rw [if_neg (by simp [h n s hp])]
      exact ih (n + 1)
    | .err =>
      simp only [waitEksGo, hp]
      exact ih (n + 1)

theorem waitEksGo_some (probe : ℕ → NodesResult) :
    ∀ fuel n k, waitEksGo probe n fuel = some k →
      n < k ∧ k ≤ n + fuel ∧
        ∃ s, probe (k - 1) = .ok s ∧ strIn "Ready" s = true := by
  intro fuel
  induction fuel with
  | zero => intro n k h; simp [waitEksGo] at h
  | succ m ih =>
    intro n k h
    match hp : probe n with
    | .ok s =>
      simp only [waitEksGo, hp] at h
      by_cases hr : strIn "Ready" s = true
      · rw [if_pos hr] at h
        have hk : n + 1 = k := by simpa using h
        subst hk
        exact ⟨by omega, by omega, s, by simpa using hp, hr⟩
      · rw [if_neg hr] at h
        obtain ⟨h1, h2, hs⟩ := ih (n + 1) k h
        exact ⟨by omega, by omega, hs⟩
    | .err =>
      simp only [waitEksGo, hp] at h
      obtain ⟨h1, h2, hs⟩ := ih (n + 1) k h
      exact ⟨by omega, by omega, hs⟩

/-- Claim C9: the cluster-readiness wait loop has no attempt bound.  It
terminates exactly when some `kubectl get nodes` invocation succeeds with
"Ready" occurring in its output (`some k`: terminated after k invocations,
with invocation k a success containing "Ready"); for a probe that never
succeeds with "Ready" in its output, the loop is still running after any
number `fuel` of invocations — it performs unboundedly many invocations and
never terminates. -/
theorem wait_for_eks_cluster_unbounded (probe : ℕ → NodesResult) :
    ((∀ n s, probe n = .ok s → strIn "Ready" s = false) →
      ∀ fuel, wait_for_eks_cluster probe fuel = none) ∧
    (∀ fuel k, wait_for_eks_cluster probe fuel = some k →
      1 ≤ k ∧ k ≤ fuel ∧
        ∃ s, probe (k - 1) = .ok s ∧ strIn "Ready" s = true) := by
  constructor
  · intro h fuel
    exact waitEksGo_never_ready probe h fuel 0
  · intro fuel k h
    obtain ⟨h1, h2, hs⟩ := waitEksGo_some probe fuel 0 k h
    exact ⟨by omega, by omega, hs⟩

/-- Claim C9 witness: a `kubectl` probe that always raises keeps the loop
running past any bound, here 100 invocations. -/
theorem wait_for_eks_cluster_unbounded_witness :
    wait_for_eks_cluster (fun _ => .err) 100 = none :=
  (wait_for_eks_cluster_unbounded (fun _ => .err)).1
    (fun _ _ h => NodesResult.noConfusion h) 100

/-- Claim C10 counterexample: standard output that is valid JSON but not an
object — here the JSON array `[]` — is caught by neither `except` handler:
`outputs.items()` raises an uncaught AttributeError instead of returning the
empty mapping, so the function is not total at its public interface. -/
theorem get_terraform_outputs_counterexample :
    get_terraform_outputs (.stdout (some (.arr []))) = .attributeError :=
  rfl

/-- Claim C10 as amended: `get_terraform_outputs` returns the empty mapping
when the outputs command fails or its standard output is not valid JSON,
and on a JSON object all of whose values are objects it returns each output
key mapped to that value's "value" member (None when absent); but it is not
total: it returns normally exactly in those cases, and valid JSON whose top
level is not an object of objects escapes as an uncaught AttributeError. -/
theorem get_terraform_outputs_amended (cmd : TfCmd) :
    (get_terraform_outputs .procError = .ok [] ∧
     get_terraform_outputs (.stdout none) = .ok []) ∧
    ((∃ out, get_terraform_outputs cmd = .ok out) ↔
      (cmd = .procError ∨ cmd = .stdout none ∨
        ∃ kvs, cmd = .stdout (some (.obj kvs)) ∧
          kvs.all (fun kv => kv.2.isObj) = true)) ∧
    (∀ kvs, kvs.all (fun kv => kv.2.isObj) = true →
      get_terraform_outputs (.stdout (some (.obj kvs))) =
        .ok (kvs.map (fun kv =>
          (kv.1, match kv.2 with
                 | .obj vkvs => dictGetValue vkvs
                 | _ => .null)))) := by
  refine ⟨⟨rfl, rfl⟩, ?_, ?_⟩
  · constructor
    · rintro ⟨out, hout⟩
      match cmd with
      | .procError => exact .inl rfl
      | .stdout none => exact .inr (.inl rfl)
      | .stdout (some j) =>
        match j with
        | .obj kvs =>
          by_cases hall : kvs.all (fun kv => kv.2.isObj) = true
          · exact .inr (.inr ⟨kvs, rfl, hall⟩)
          · exfalso
            simp only [get_terraform_outputs] at hout
            rw [if_neg hall] at hout
            exact PyResult.noConfusion hout
        | .null => exact absurd hout (fun h => PyResult.noConfusion h)
        | .bool b => exact absurd hout (fun h => PyResult.noConfusion h)
        | .num q => exact absurd hout (fun h => PyResult.noConfusion h)
        | .str t => exact absurd hout (fun h => PyResult.noConfusion h)
        | .arr xs => exact absurd hout (fun h => PyResult.noConfusion h)
    · rintro (rfl | rfl | ⟨kvs, rfl, hall⟩)
      · exact ⟨[], rfl⟩
      · exact ⟨[], rfl⟩
      · refine ⟨kvs.map (fun kv =>
          (kv.1, match kv.2 with
                 | .obj vkvs => dictGetValue vkvs
                 | _ => .null)), ?_⟩
        simp only [get_terraform_outputs]
        rw [if_pos hall]
  · intro kvs hall
    simp only [get_terraform_outputs]
    rw [if_pos hall]

/-- Claim C10 amended-claim witness: the two caught failure modes return
the empty mapping, and a well-formed outputs object maps its key to the
declared value. -/
theorem get_terraform_outputs_amended_witness :
    get_terraform_outputs .procError = .ok [] ∧
    get_terraform_outputs (.stdout none) = .ok [] ∧
    get_terraform_outputs (.stdout (some (.obj
        [("eks_cluster_name", .obj [("value", .str "my-cluster")])]))) =
      .ok [("eks_cluster_name", .str "my-cluster")] := by
  have h := get_terraform_outputs_amended (.stdout (some (.obj
    [("eks_cluster_name", .obj [("value", .str "my-cluster")])])))
  refine ⟨h.1.1, h.1.2, ?_⟩
  have h3 := h.2.2 [("eks_cluster_name", .obj [("value", .str "my-cluster")])] rfl
  rw [h3]
  rfl

end SelfhostCli
